import Mathlib

/-!
# binanceBot: the ticker table of `main.go`

A shallow embedding of `main.go`: the stream worker's receive loop
(`monitorAsset`), the aggregator goroutine of `main`, and the renderer
`printTable`, with the two package-level maps `tickerData` and `prevPrices`
passed as explicit state.

The routines of the Go standard library that the program calls
(`json.Number.Float64`, `json.Unmarshal`, the Unicode case tables behind
`strings.ToLower`) are parameters of the model; the theorems hold for every
choice of them.  `float64` values are modelled exactly (sign, mantissa, binary
exponent, the infinities and NaN) with the IEEE comparisons, and the verbs of
`fmt.Printf` that `printTable` uses are modelled on these values.
-/

namespace BinanceBot

/-! ## Data model -/

/-- The variable `assets` of main.go, line 16. -/
def assets : List String :=
  ["btcusdt", "ethusdt", "bnbusdt", "xrpusdt", "solusdt", "adausdt"]

/-- The struct `TickerMessage` of main.go.  A `json.Number` is a Go string. -/
structure TickerMessage where
  EventType : String
  EventTime : String
  Symbol : String
  PriceChange : String
  PriceChangePct : String
  WeightedAvgPrice : String
  PrevClosePrice : String
  LastPrice : String
  LastQty : String
  BidPrice : String
  BidQuantity : String
  AskPrice : String
  AskQuantity : String
  LastTime : String
deriving DecidableEq, Repr

/-- A Go `map[string]V`: at most one live value per key.  The pairs are kept in
a list; `get` reads the first pair of a key and `set` removes every older pair
of the key it writes. -/
structure GoMap (V : Type) where
  entries : List (String × V)

namespace GoMap

variable {V : Type}

/-- The result of `make(map[string]V)`. -/
def empty : GoMap V := ⟨[]⟩

/-- The lookup `v, ok := m[k]`: `some v` when `ok`, `none` otherwise. -/
def get (m : GoMap V) (k : String) : Option V :=
  match m.entries.find? (fun p => p.1 == k) with
  | some p => some p.2
  | none => none

/-- The assignment `m[k] = v`. -/
def set (m : GoMap V) (k : String) (v : V) : GoMap V :=
  ⟨(k, v) :: m.entries.filter (fun p => p.1 != k)⟩

/-- The keys present in the map. -/
def keys (m : GoMap V) : List String := m.entries.map Prod.fst

/-- The value of `len(m)`. -/
def len (m : GoMap V) : Nat := m.entries.length

end GoMap

/-! ## float64 -/

/-- A `float64`: NaN, an infinity, or the finite value
`(-1)^neg * mant * 2^exp` (which covers both zeros). -/
inductive F64 where
  | nan
  | inf (neg : Bool)
  | finite (neg : Bool) (mant : Nat) (exp : Int)
deriving DecidableEq, Repr

namespace F64

/-- The integer `(-1)^neg * mant * 2^(exp - base)`, for `base ≤ exp`. -/
def scaled (neg : Bool) (mant : Nat) (exp base : Int) : Int :=
  let n : Int := (mant * 2 ^ (exp - base).toNat : Nat)
  if neg then -n else n

/-- The Go comparison `a < b` on `float64`. -/
def lt : F64 → F64 → Bool
  | nan, _ => false
  | _, nan => false
  | inf true, inf true => false
  | inf true, _ => true
  | _, inf true => false
  | inf false, _ => false
  | _, inf false => true
  | finite n₁ m₁ e₁, finite n₂ m₂ e₂ =>
    decide (scaled n₁ m₁ e₁ (min e₁ e₂) < scaled n₂ m₂ e₂ (min e₁ e₂))

/-- The Go comparison `a > b` on `float64`. -/
def gt (a b : F64) : Bool := lt b a

/-- The Go comparison `a == b` on `float64`. -/
def eq : F64 → F64 → Bool
  | nan, _ => false
  | _, nan => false
  | inf s, inf t => s == t
  | inf _, finite _ _ _ => false
  | finite _ _ _, inf _ => false
  | finite n₁ m₁ e₁, finite n₂ m₂ e₂ =>
    decide (scaled n₁ m₁ e₁ (min e₁ e₂) = scaled n₂ m₂ e₂ (min e₁ e₂))

/-- A finite value. -/
def isFinite : F64 → Bool
  | finite _ _ _ => true
  | _ => false

end F64

/-! ## Formatting (`fmt.Printf`) -/

/-- The verb `%-Ns` (also the padding of `%-N.2f`): left-justified in a field of
`n` runes, padded with spaces on the right. -/
def padRight (n : Nat) (s : String) : String :=
  s ++ String.mk (List.replicate (n - s.length) ' ')

/-- The quotient `num / den` rounded to the nearest integer, ties to even. -/
def roundHalfEven (num den : Nat) : Nat :=
  let q := num / den
  let r := num % den
  if 2 * r < den then q
  else if den < 2 * r then q + 1
  else q + q % 2

/-- The decimal digit `d % 10` as a character. -/
def digitChar (d : Nat) : Char := Char.ofNat (48 + d % 10)

/-- The decimal digits of `n`, most significant first; `fuel` bounds the number
of digits. -/
def natDigits : Nat → Nat → List Char
  | 0, _ => []
  | fuel + 1, n => if n < 10 then [digitChar n] else natDigits fuel (n / 10) ++ [digitChar n]

/-- The number of hundredths nearest to `mant * 2^exp` (ties to even). -/
def hundredths (mant : Nat) (exp : Int) : Nat :=
  if 0 ≤ exp then mant * 2 ^ exp.toNat * 100
  else roundHalfEven (mant * 100) (2 ^ (-exp).toNat)

/-- The precision `.2f` of a `float64` (`strconv.FormatFloat(x, 'f', 2, 64)` as
`fmt` prints it): the exact value rounded to two decimals, ties to even. -/
def fmtF2 : F64 → String
  | F64.nan => "NaN"
  | F64.inf false => "+Inf"
  | F64.inf true => "-Inf"
  | F64.finite neg mant exp =>
    let h := hundredths mant exp
    (if neg then "-" else "") ++ String.mk (natDigits (h + 1) (h / 100)) ++ "."
      ++ String.mk [digitChar (h / 10), digitChar h]

/-- The escape `\033[0m`: the default colour. -/
def colorDefault : String := "\x1b[0m"

/-- The escape `\033[32m`: green, for a rise. -/
def colorGreen : String := "\x1b[32m"

/-- The escape `\033[31m`: red, for a fall. -/
def colorRed : String := "\x1b[31m"

/-- One of the three `fmt.Printf` calls of the loop of `printTable`, with its
arguments. -/
inductive Row where
  | numeric (symbol priceColor : String)
      (lastPrice bidPrice askPrice priceChange priceChangePct : F64)
  | conversionError (symbol : String)
  | placeholder (symbol : String)
deriving DecidableEq, Repr

namespace Row

/-- The first argument of the call: the content of the symbol column. -/
def symbol : Row → String
  | numeric s _ _ _ _ _ _ => s
  | conversionError s => s
  | placeholder s => s

/-- The text the call prints (main.go, lines 128, 131 and 134). -/
def text : Row → String
  | numeric s c l b a p pc =>
    padRight 10 s ++ " | " ++ c ++ padRight 12 (fmtF2 l) ++ "\x1b[0m" ++ " | "
      ++ padRight 10 (fmtF2 b) ++ " | " ++ padRight 10 (fmtF2 a) ++ " | "
      ++ padRight 10 (fmtF2 p) ++ " | " ++ padRight 10 (fmtF2 pc) ++ "%\n"
  | conversionError s => padRight 10 s ++ " | Erro de Conversão\n"
  | placeholder s =>
    padRight 10 s ++ " | " ++ padRight 12 "-" ++ " | " ++ padRight 10 "-" ++ " | "
      ++ padRight 10 "-" ++ " | " ++ padRight 10 "-" ++ " | " ++ padRight 10 "-" ++ "\n"

end Row

/-- The two lines `printTable` prints before the rows (main.go, lines 92-93). -/
def tableHeader : List String :=
  ["\n" ++ padRight 10 "Pair" ++ " | " ++ padRight 12 "Último Preço" ++ " | "
      ++ padRight 10 "Bid" ++ " | " ++ padRight 10 "Ask" ++ " | "
      ++ padRight 10 "Mudança" ++ " | " ++ padRight 10 "Mudança (%)" ++ "\n",
   "------------------------------------------------------------------------------------------\n"]

/-! ## Library routines -/

/-- The library routines `printTable` depends on.  `Float64 s` is the value of
`json.Number(s).Float64()` when its error is nil, and `none` when it is not;
`unicodeToLower` is `unicode.ToLower`. -/
structure Runtime where
  Float64 : String → Option F64
  unicodeToLower : Char → Char

/-- The function `strings.ToLower`: a string of ASCII bytes is returned as it is
when it has no upper-case letter and with `A`-`Z` lowered otherwise; any other
string is mapped rune by rune through `unicode.ToLower`. -/
def ToLower (rt : Runtime) (s : String) : String :=
  if s.data.all (fun c => decide (c.val < 128)) then
    if s.data.any (fun c => decide ('A' ≤ c ∧ c ≤ 'Z')) then String.mk (s.data.map Char.toLower)
    else s
  else String.mk (s.data.map rt.unicodeToLower)

/-! ## A runtime for decimal literals -/

/-- The decimal digits at the front of a text: their value (continuing `acc`),
their number (continuing `n`), and the rest of the text. -/
def readDigits : List Char → Nat → Nat → Nat × Nat × List Char
  | [], acc, n => (acc, n, [])
  | c :: cs, acc, n =>
    if c.isDigit then readDigits cs (acc * 10 + (c.toNat - 48)) (n + 1) else (acc, n, c :: cs)

/-- An optional sign at the front of a text: whether it is `-`, and the rest. -/
def readSign : List Char → Bool × List Char
  | '-' :: cs => (true, cs)
  | '+' :: cs => (false, cs)
  | cs => (false, cs)

/-- The position of the highest set bit of a positive number (`fuel` bounds it). -/
def floorLog2 : Nat → Nat → Nat
  | 0, _ => 0
  | fuel + 1, n => if n < 2 then 0 else floorLog2 fuel (n / 2) + 1

/-- The `float64` nearest to `(-1)^neg * num / den` (ties to even), or `none`
when it is out of range (`strconv.ErrRange`). -/
def nearestF64 (neg : Bool) (num den : Nat) : Option F64 :=
  if num = 0 then some (F64.finite neg 0 0)
  else
    let k₀ : Int := (floorLog2 num num : Int) - (floorLog2 den den : Int)
    let k : Int :=
      if 0 ≤ k₀ then (if den * 2 ^ k₀.toNat ≤ num then k₀ else k₀ - 1)
      else (if den ≤ num * 2 ^ (-k₀).toNat then k₀ else k₀ - 1)
    let e : Int := max (k - 52) (-1074)
    let m : Nat :=
      if 0 ≤ e then roundHalfEven num (den * 2 ^ e.toNat)
      else roundHalfEven (num * 2 ^ (-e).toNat) den
    if 971 < e ∨ (e = 971 ∧ 2 ^ 53 ≤ m) then none else some (F64.finite neg m e)

/-- The value `strconv.ParseFloat(s, 64)` gives a decimal literal
(`[+-]digits[.digits][e[+-]digits]`) or a spelling of infinity or NaN, when its
error is nil.  Hexadecimal mantissas and digit separators are not read. -/
def parseDecimal (s : String) : Option F64 :=
  let sg := readSign s.data
  let low := String.mk (sg.2.map Char.toLower)
  if low = "inf" ∨ low = "infinity" then some (F64.inf sg.1)
  else if String.mk (s.data.map Char.toLower) = "nan" then some F64.nan
  else
    let ip := readDigits sg.2 0 0
    let fp : Nat × Nat × List Char :=
      match ip.2.2 with
      | '.' :: cs => readDigits cs ip.1 0
      | cs => (ip.1, 0, cs)
    if ip.2.1 + fp.2.1 = 0 then none
    else
      let ex : Option (Int × List Char) :=
        match fp.2.2 with
        | c :: cs =>
          if c = 'e' ∨ c = 'E' then
            let es := readSign cs
            let ed := readDigits es.2 0 0
            if ed.2.1 = 0 then none
            else some (if es.1 then -(ed.1 : Int) else (ed.1 : Int), ed.2.2)
          else some (0, c :: cs)
        | [] => some (0, [])
      match ex with
      | some (x, []) =>
        let x10 : Int := x - (fp.2.1 : Int)
        if 0 ≤ x10 then nearestF64 sg.1 (fp.1 * 10 ^ x10.toNat) 1
        else nearestF64 sg.1 fp.1 (10 ^ (-x10).toNat)
      | _ => none

/-- A runtime that converts decimal literals as Go does and lowers the case of
ASCII letters only. -/
def decimalRuntime : Runtime := ⟨parseDecimal, Char.toLower⟩

/-! ## The shared state and the renderer -/

/-- The package-level variables `tickerData` and `prevPrices`. -/
structure Store where
  tickerData : GoMap TickerMessage
  prevPrices : GoMap F64

/-- The state at program start: both maps empty. -/
def Store.empty : Store := ⟨GoMap.empty, GoMap.empty⟩

/-- The effect of one iteration of the loop of `printTable`: the row printed,
the map `prevPrices` after it, and the texts on which `Float64` was called. -/
structure RowResult where
  row : Row
  prevPrices : GoMap F64
  converted : List String

/-- The colour chosen at main.go, lines 112-121, once the last price converted. -/
def trendColor (prev : Option F64) (lastPrice : F64) : String :=
  match prev with
  | some prevPrice =>
    if F64.gt lastPrice prevPrice then colorGreen
    else if F64.lt lastPrice prevPrice then colorRed
    else colorDefault
  | none => colorDefault

/-- The body of the loop of `printTable` (main.go, lines 100-135) for one
symbol of the list. -/
def printRow (rt : Runtime) (tickerData : GoMap TickerMessage) (prevPrices : GoMap F64)
    (symbol : String) : RowResult :=
  let symbolLower := ToLower rt symbol
  match tickerData.get symbolLower with
  | some data =>
    let r1 := rt.Float64 data.LastPrice
    let r2 := rt.Float64 data.BidPrice
    let r3 := rt.Float64 data.AskPrice
    let r4 := rt.Float64 data.PriceChange
    let r5 := rt.Float64 data.PriceChangePct
    let converted :=
      [data.LastPrice, data.BidPrice, data.AskPrice, data.PriceChange, data.PriceChangePct]
    let colored : String × GoMap F64 :=
      match r1 with
      | some lastPrice =>
        (trendColor (prevPrices.get symbolLower) lastPrice, prevPrices.set symbolLower lastPrice)
      | none => (colorDefault, prevPrices)
    match r1, r2, r3, r4, r5 with
    | some lastPrice, some bidPrice, some askPrice, some priceChange, some priceChangePct =>
      ⟨Row.numeric data.Symbol colored.1 lastPrice bidPrice askPrice priceChange priceChangePct,
        colored.2, converted⟩
    | _, _, _, _, _ => ⟨Row.conversionError symbol, colored.2, converted⟩
  | none => ⟨Row.placeholder symbol, prevPrices, []⟩

/-- What one call of `printTable` does: the rows printed in order, the calls of
`Float64` made (symbol of the list, text converted), and the state left. -/
structure Render where
  rows : List Row
  calls : List (String × String)
  store : Store

/-- The loop `for _, symbol := range assets` of `printTable`, over any list of
symbols. -/
def printRows (rt : Runtime) (tickerData : GoMap TickerMessage) :
    List String → GoMap F64 → List Row × List (String × String) × GoMap F64
  | [], prevPrices => ([], [], prevPrices)
  | symbol :: rest, prevPrices =>
    let r := printRow rt tickerData prevPrices symbol
    let out := printRows rt tickerData rest r.prevPrices
    (r.row :: out.1, r.converted.map (fun t => (symbol, t)) ++ out.2.1, out.2.2)

/-- The function `printTable` of main.go.  The call of `clearTerminal` runs an
external command that touches neither the maps nor the rows; the two header
lines are `tableHeader`. -/
def printTable (rt : Runtime) (st : Store) : Render :=
  let out := printRows rt st.tickerData assets st.prevPrices
  ⟨out.1, out.2.1, ⟨st.tickerData, out.2.2⟩⟩

/-- The text a render writes to the terminal after clearing it. -/
def Render.text (r : Render) : List String := tableHeader ++ r.rows.map Row.text

/-- The row a render printed for a symbol of the list. -/
def Render.rowOf (r : Render) (symbol : String) : Option Row :=
  r.rows[assets.indexOf symbol]?

/-! ## The aggregator goroutine -/

/-- The statement `tickerData[update.Symbol] = update` (main.go, lines 150-152). -/
def applyUpdate (st : Store) (update : TickerMessage) : Store :=
  { st with tickerData := st.tickerData.set update.Symbol update }

/-- One iteration of the aggregator loop (main.go, lines 148-158): store the
update, then print the table. -/
def aggregatorStep (rt : Runtime) (st : Store) (update : TickerMessage) : Render :=
  printTable rt (applyUpdate st update)

/-- The aggregator loop over the updates received from the channel, in order:
the renders made, one per update, and the final state. -/
def aggregator (rt : Runtime) : Store → List TickerMessage → List Render × Store
  | st, [] => ([], st)
  | st, update :: rest =>
    let r := aggregatorStep rt st update
    let out := aggregator rt r.store rest
    (r :: out.1, out.2)

/-- A step on the shared state: an update is stored, or the table is printed. -/
inductive Step where
  | apply (update : TickerMessage)
  | render

/-- The state after a sequence of steps. -/
def runSteps (rt : Runtime) : Store → List Step → Store
  | st, [] => st
  | st, Step.apply update :: rest => runSteps rt (applyUpdate st update) rest
  | st, Step.render :: rest => runSteps rt (printTable rt st).store rest

/-! ## The stream worker -/

/-- A frame returned by `conn.ReadMessage`. -/
abbrev Frame := List UInt8

/-- The receive loop of `monitorAsset` (main.go, lines 53-70) on an established
connection.  `reads` are the results of the successive calls of
`conn.ReadMessage` (`none` is a read error); `unmarshal m` is the message
`json.Unmarshal` decodes from `m` into a fresh `TickerMessage`, `none` when it
returns an error.  The result is the sequence of messages sent on
`tickerUpdateCh`. -/
def monitorAsset (rt : Runtime) (unmarshal : Frame → Option TickerMessage) :
    List (Option Frame) → List TickerMessage
  | [] => []
  | none :: _ => []
  | some message :: rest =>
    match unmarshal message with
    | none => monitorAsset rt unmarshal rest
    | some ticker =>
      { ticker with Symbol := ToLower rt ticker.Symbol } :: monitorAsset rt unmarshal rest

/-! ## Predicates and sample data used by the theorems -/

/-- Every snapshot is stored under its own symbol. -/
def KeyedBySymbol (st : Store) : Prop :=
  ∀ (k : String) (d : TickerMessage), st.tickerData.get k = some d → d.Symbol = k

/-- A text made of an optional minus sign, one or more digits, a point and
exactly two digits. -/
def TwoDecimals (t : String) : Prop :=
  ∃ (sign : String) (int : List Char) (d₁ d₂ : Char),
    t = sign ++ String.mk int ++ "." ++ String.mk [d₁, d₂] ∧ (sign = "" ∨ sign = "-") ∧
      int ≠ [] ∧ (∀ c ∈ int, c.isDigit = true) ∧ d₁.isDigit = true ∧ d₂.isDigit = true

/-- A ticker event for `symbol` whose last, bid and ask prices are all `price`
and whose two change fields are zero. -/
def tick (symbol price : String) : TickerMessage where
  EventType := "24hrTicker"
  EventTime := "1700000000000"
  Symbol := symbol
  PriceChange := "0.00"
  PriceChangePct := "0.00"
  WeightedAvgPrice := price
  PrevClosePrice := price
  LastPrice := price
  LastQty := "1.00"
  BidPrice := price
  BidQuantity := "1.00"
  AskPrice := price
  AskQuantity := "1.00"
  LastTime := "1700000000000"

/-- The event of the round-trip example: `btcusdt` at 61234.50. -/
def exampleTicker : TickerMessage where
  EventType := "24hrTicker"
  EventTime := "1700000000000"
  Symbol := "btcusdt"
  PriceChange := "120.10"
  PriceChangePct := "0.20"
  WeightedAvgPrice := "61200.00"
  PrevClosePrice := "61114.40"
  LastPrice := "61234.50"
  LastQty := "0.01"
  BidPrice := "61234.00"
  BidQuantity := "1.50"
  AskPrice := "61235.00"
  AskQuantity := "2.50"
  LastTime := "1700000000000"

/-- A decoder for examples: the frames `[1]` and `[2]` decode to events that
spell the symbol in upper and mixed case, every other frame fails to decode. -/
def sampleUnmarshal : Frame → Option TickerMessage
  | [1] => some (tick "BTCUSDT" "1")
  | [2] => some (tick "BtcUsdt" "2")
  | _ => none

/-- The last price a render records for a key: the converted last price of the
key's snapshot, when there is one and it converts. -/
def lastPriceOf (rt : Runtime) (tickerData : GoMap TickerMessage) (k : String) : Option F64 :=
  match tickerData.get k with
  | some data => rt.Float64 data.LastPrice
  | none => none

/-! ## Lemmas on maps -/

namespace GoMap

variable {V : Type}

theorem get_empty (k : String) : (GoMap.empty : GoMap V).get k = none := rfl

theorem get_set_self (m : GoMap V) (k : String) (v : V) : (m.set k v).get k = some v := by
  simp [GoMap.get, GoMap.set]

theorem find_filter_ne (l : List (String × V)) (k k' : String) (h : k' ≠ k) :
    (l.filter (fun p => p.1 != k)).find? (fun p => p.1 == k') = l.find? (fun p => p.1 == k') := by
  induction l with
  | nil => rfl
  | cons p l ih =>
    by_cases hp : p.1 = k
    · have h1 : ¬ p.1 = k' := fun e => h (e.symm.trans hp)
      rw [List.filter_cons_of_neg (by simpa using hp), List.find?_cons_of_neg _ (by simpa using h1)]
      exact ih
    · rw [List.filter_cons_of_pos (by simpa using hp)]
      by_cases hp' : p.1 = k'
      · rw [List.find?_cons_of_pos _ (by simpa using hp'), List.find?_cons_of_pos _ (by simpa using hp')]
      · rw [List.find?_cons_of_neg _ (by simpa using hp'), List.find?_cons_of_neg _ (by simpa using hp')]
        exact ih

theorem get_set_ne (m : GoMap V) (k k' : String) (v : V) (h : k' ≠ k) :
    (m.set k v).get k' = m.get k' := by
  have hk : ¬ k = k' := fun e => h e.symm
  simp only [GoMap.get, GoMap.set]
  rw [List.find?_cons_of_neg _ (by simpa using hk), find_filter_ne _ _ _ h]

theorem keys_set (m : GoMap V) (k : String) (v : V) :
    (m.set k v).keys = k :: m.keys.filter (fun x => x != k) := by
  cases m with
  | mk l =>
    simp only [GoMap.keys, GoMap.set, List.map_cons, List.cons.injEq, true_and]
    induction l with
    | nil => rfl
    | cons p l ih =>
      by_cases hp : p.1 = k <;> simp [List.filter_cons, hp, ih]

theorem mem_keys_set (m : GoMap V) (k k' : String) (v : V) :
    k' ∈ (m.set k v).keys ↔ k' = k ∨ k' ∈ m.keys := by
  rw [keys_set]
  by_cases h : k' = k <;> simp [h]

theorem nodup_keys_set (m : GoMap V) (k : String) (v : V) (h : m.keys.Nodup) :
    (m.set k v).keys.Nodup := by
  rw [keys_set]
  refine List.nodup_cons.mpr ⟨?_, h.filter _⟩
  simp

theorem get_eq_none_iff (m : GoMap V) (k : String) : m.get k = none ↔ k ∉ m.keys := by
  cases m with
  | mk l =>
    simp only [GoMap.get, GoMap.keys]
    induction l with
    | nil => simp
    | cons p l ih =>
      by_cases hp : p.1 = k
      · simp [List.find?_cons, hp]
      · have hp' : ¬ k = p.1 := fun e => hp e.symm
        simp [List.find?_cons, hp, hp'] at ih ⊢
        exact ih

end GoMap

/-! ## Lemmas on float64 comparisons -/

namespace F64

theorem lt_irrefl (a : F64) : lt a a = false := by
  cases a with
  | nan => rfl
  | inf s => cases s <;> rfl
  | finite n m e => simp [lt]

theorem lt_asymm (a b : F64) (h : lt a b = true) : lt b a = false := by
  cases a with
  | nan => simp [lt] at h
  | inf s =>
    cases b with
    | nan => cases s <;> simp [lt] at h
    | inf t => cases s <;> cases t <;> simp [lt] at h ⊢
    | finite n m e => cases s <;> simp [lt] at h ⊢
  | finite n m e =>
    cases b with
    | nan => simp [lt] at h
    | inf t => cases t <;> simp [lt] at h ⊢
    | finite n' m' e' =>
      simp only [lt, decide_eq_true_eq, decide_eq_false_iff_not, not_lt] at h ⊢
      rw [min_comm e' e]
      exact le_of_lt h

theorem lt_of_eq (a b : F64) (h : eq a b = true) : lt a b = false ∧ lt b a = false := by
  cases a with
  | nan => simp [eq] at h
  | inf s =>
    cases b with
    | nan => cases s <;> simp [eq] at h
    | inf t => cases s <;> cases t <;> simp [eq, lt] at h ⊢
    | finite n m e => simp [eq] at h
  | finite n m e =>
    cases b with
    | nan => simp [eq] at h
    | inf t => simp [eq] at h
    | finite n' m' e' =>
      simp only [eq, lt, decide_eq_true_eq, decide_eq_false_iff_not, not_lt] at h ⊢
      rw [min_comm e' e, h]
      exact ⟨le_refl _, le_refl _⟩

end F64

/-! ## Lemmas on the renderer -/

theorem ToLower_of_mem_assets (rt : Runtime) (s : String) (h : s ∈ assets) : ToLower rt s = s := by
  simp only [assets, List.mem_cons, List.mem_singleton, List.not_mem_nil, or_false] at h
  rcases h with h | h | h | h | h | h <;> subst h <;> rfl

theorem nodup_assets : assets.Nodup := by decide

theorem printRow_prev_get_ne (rt : Runtime) (td : GoMap TickerMessage) (pp : GoMap F64)
    (s k : String) (h : k ≠ ToLower rt s) : (printRow rt td pp s).prevPrices.get k = pp.get k := by
  cases hd : td.get (ToLower rt s) with
  | none => simp only [printRow, hd]
  | some d =>
    cases h1 : rt.Float64 d.LastPrice <;> cases h2 : rt.Float64 d.BidPrice <;>
    cases h3 : rt.Float64 d.AskPrice <;> cases h4 : rt.Float64 d.PriceChange <;>
    cases h5 : rt.Float64 d.PriceChangePct <;>
    simp only [printRow, hd, h1, h2, h3, h4, h5, GoMap.get_set_ne _ _ _ _ h]

theorem printRow_prev_get_self (rt : Runtime) (td : GoMap TickerMessage) (pp : GoMap F64)
    (s : String) :
    (printRow rt td pp s).prevPrices.get (ToLower rt s) =
      match lastPriceOf rt td (ToLower rt s) with
      | some v => some v
      | none => pp.get (ToLower rt s) := by
  cases hd : td.get (ToLower rt s) with
  | none => simp only [printRow, lastPriceOf, hd]
  | some d =>
    cases h1 : rt.Float64 d.LastPrice <;> cases h2 : rt.Float64 d.BidPrice <;>
    cases h3 : rt.Float64 d.AskPrice <;> cases h4 : rt.Float64 d.PriceChange <;>
    cases h5 : rt.Float64 d.PriceChangePct <;>
    simp only [printRow, lastPriceOf, hd, h1, h2, h3, h4, h5, GoMap.get_set_self]

theorem printRow_congr (rt : Runtime) (td : GoMap TickerMessage) (pp pp' : GoMap F64)
    (s : String) (h : pp.get (ToLower rt s) = pp'.get (ToLower rt s)) :
    (printRow rt td pp s).row = (printRow rt td pp' s).row ∧
      (printRow rt td pp s).converted = (printRow rt td pp' s).converted := by
  cases hd : td.get (ToLower rt s) with
  | none => simp only [printRow, hd, and_self]
  | some d =>
    cases h1 : rt.Float64 d.LastPrice <;> cases h2 : rt.Float64 d.BidPrice <;>
    cases h3 : rt.Float64 d.AskPrice <;> cases h4 : rt.Float64 d.PriceChange <;>
    cases h5 : rt.Float64 d.PriceChangePct <;>
    simp only [printRow, hd, h1, h2, h3, h4, h5, h, and_self]

theorem printRows_rows (rt : Runtime) (td : GoMap TickerMessage) (syms : List String)
    (pp : GoMap F64) (h : (syms.map (ToLower rt)).Nodup) :
    (printRows rt td syms pp).1 = syms.map (fun s => (printRow rt td pp s).row) ∧
    (printRows rt td syms pp).2.1 =
      syms.flatMap (fun s => (printRow rt td pp s).converted.map (fun t => (s, t))) := by
  induction syms generalizing pp with
  | nil => exact ⟨rfl, rfl⟩
  | cons s rest ih =>
    rw [List.map_cons, List.nodup_cons] at h
    have hrest := ih (printRow rt td pp s).prevPrices h.2
    have hc : ∀ x ∈ rest, (printRow rt td (printRow rt td pp s).prevPrices x).row
          = (printRow rt td pp x).row ∧
        (printRow rt td (printRow rt td pp s).prevPrices x).converted
          = (printRow rt td pp x).converted := by
      intro x hx
      apply printRow_congr
      apply printRow_prev_get_ne
      intro e
      exact h.1 (e ▸ List.mem_map_of_mem _ hx)
    constructor
    · simp only [printRows, List.map_cons, List.cons.injEq, true_and]
      rw [hrest.1]
      exact List.map_congr_left (fun x hx => (hc x hx).1)
    · simp only [printRows, List.flatMap_cons]
      rw [hrest.2]
      congr 1
      exact List.flatMap_congr (fun x hx => by rw [(hc x hx).2])

theorem printRows_prev (rt : Runtime) (td : GoMap TickerMessage) (syms : List String)
    (pp : GoMap F64) (k : String) :
    (printRows rt td syms pp).2.2.get k =
      if k ∈ syms.map (ToLower rt) then
        (match lastPriceOf rt td k with
          | some v => some v
          | none => pp.get k)
      else pp.get k := by
  induction syms generalizing pp with
  | nil => simp [printRows]
  | cons s rest ih =>
    simp only [printRows, List.map_cons, List.mem_cons]
    rw [ih]
    by_cases hk : k = ToLower rt s
    · subst hk
      rw [printRow_prev_get_self]
      cases lastPriceOf rt td (ToLower rt s) <;> simp
    · rw [printRow_prev_get_ne _ _ _ _ _ hk]
      simp [hk]

theorem map_ToLower_assets (rt : Runtime) : assets.map (ToLower rt) = assets := by
  conv_rhs => rw [← List.map_id assets]
  exact List.map_congr_left (fun s hs => ToLower_of_mem_assets rt s hs)

theorem printTable_rows (rt : Runtime) (st : Store) :
    (printTable rt st).rows
      = assets.map (fun s => (printRow rt st.tickerData st.prevPrices s).row) :=
  (printRows_rows rt st.tickerData assets st.prevPrices
    (by rw [map_ToLower_assets]; exact nodup_assets)).1

theorem printTable_calls (rt : Runtime) (st : Store) :
    (printTable rt st).calls
      = assets.flatMap (fun s =>
          (printRow rt st.tickerData st.prevPrices s).converted.map (fun t => (s, t))) :=
  (printRows_rows rt st.tickerData assets st.prevPrices
    (by rw [map_ToLower_assets]; exact nodup_assets)).2

theorem printTable_rowOf (rt : Runtime) (st : Store) (s : String) (h : s ∈ assets) :
    (printTable rt st).rowOf s = some (printRow rt st.tickerData st.prevPrices s).row := by
  simp only [Render.rowOf, printTable_rows]
  simp only [assets, List.mem_cons, List.mem_singleton, List.not_mem_nil, or_false] at h
  rcases h with h | h | h | h | h | h <;> subst h <;> rfl

theorem printTable_prev (rt : Runtime) (st : Store) (k : String) :
    (printTable rt st).store.prevPrices.get k =
      if k ∈ assets then
        (match lastPriceOf rt st.tickerData k with
          | some v => some v
          | none => st.prevPrices.get k)
      else st.prevPrices.get k := by
  have h := printRows_prev rt st.tickerData assets st.prevPrices k
  rw [map_ToLower_assets] at h
  exact h

theorem printTable_tickerData (rt : Runtime) (st : Store) :
    (printTable rt st).store.tickerData = st.tickerData := rfl

theorem printRow_of_none (rt : Runtime) (td : GoMap TickerMessage) (pp : GoMap F64) (s : String)
    (h : td.get (ToLower rt s) = none) :
    printRow rt td pp s = ⟨Row.placeholder s, pp, []⟩ := by
  simp only [printRow, h]

theorem printRow_of_some (rt : Runtime) (td : GoMap TickerMessage) (pp : GoMap F64) (s : String)
    (d : TickerMessage) (l b a c p : F64) (h : td.get (ToLower rt s) = some d)
    (hl : rt.Float64 d.LastPrice = some l) (hb : rt.Float64 d.BidPrice = some b)
    (ha : rt.Float64 d.AskPrice = some a) (hc : rt.Float64 d.PriceChange = some c)
    (hp : rt.Float64 d.PriceChangePct = some p) :
    (printRow rt td pp s).row
      = Row.numeric d.Symbol (trendColor (pp.get (ToLower rt s)) l) l b a c p := by
  simp only [printRow, h, hl, hb, ha, hc, hp]

theorem printRow_of_failure (rt : Runtime) (td : GoMap TickerMessage) (pp : GoMap F64)
    (s : String) (d : TickerMessage) (h : td.get (ToLower rt s) = some d)
    (hf : rt.Float64 d.LastPrice = none ∨ rt.Float64 d.BidPrice = none ∨
      rt.Float64 d.AskPrice = none ∨ rt.Float64 d.PriceChange = none ∨
      rt.Float64 d.PriceChangePct = none) :
    (printRow rt td pp s).row = Row.conversionError s := by
  cases h1 : rt.Float64 d.LastPrice <;> cases h2 : rt.Float64 d.BidPrice <;>
  cases h3 : rt.Float64 d.AskPrice <;> cases h4 : rt.Float64 d.PriceChange <;>
  cases h5 : rt.Float64 d.PriceChangePct <;>
  first
    | (simp [h1, h2, h3, h4, h5] at hf; done)
    | simp only [printRow, h, h1, h2, h3, h4, h5]

theorem printRow_congr_tickerData (rt : Runtime) (td td' : GoMap TickerMessage) (pp : GoMap F64)
    (s : String) (h : td.get (ToLower rt s) = td'.get (ToLower rt s)) :
    printRow rt td pp s = printRow rt td' pp s := by
  simp only [printRow, h]

/-! ## Lemmas on the aggregator -/

theorem aggregator_append (rt : Runtime) (st : Store) (xs ys : List TickerMessage) :
    aggregator rt st (xs ++ ys)
      = ((aggregator rt st xs).1 ++ (aggregator rt (aggregator rt st xs).2 ys).1,
          (aggregator rt (aggregator rt st xs).2 ys).2) := by
  induction xs generalizing st with
  | nil => rfl
  | cons x xs ih =>
    show aggregator rt st (x :: (xs ++ ys)) = _
    simp only [aggregator, ih, List.cons_append]

theorem aggregator_tickerData (rt : Runtime) (st : Store) (events : List TickerMessage) :
    (aggregator rt st events).2.tickerData
      = events.foldl (fun m e => m.set e.Symbol e) st.tickerData := by
  induction events generalizing st with
  | nil => rfl
  | cons x xs ih =>
    simp only [aggregator, List.foldl_cons]
    rw [ih]
    rfl

theorem foldl_set_get (m : GoMap TickerMessage) (events : List TickerMessage) (k : String) :
    (events.foldl (fun m e => m.set e.Symbol e) m).get k =
      match events.reverse.find? (fun e => e.Symbol == k) with
      | some e => some e
      | none => m.get k := by
  induction events using List.reverseRecOn with
  | nil => rfl
  | append_singleton xs x ih =>
    rw [List.foldl_append, List.reverse_append]
    simp only [List.foldl_cons, List.foldl_nil, List.reverse_cons, List.reverse_nil,
      List.nil_append, List.singleton_append]
    by_cases hx : x.Symbol = k
    · subst hx
      rw [GoMap.get_set_self, List.find?_cons_of_pos _ (by simp)]
    · rw [GoMap.get_set_ne _ _ _ _ (fun e => hx e.symm), List.find?_cons_of_neg _ (by simpa using hx)]
      exact ih

theorem foldl_set_nodup (m : GoMap TickerMessage) (events : List TickerMessage)
    (h : m.keys.Nodup) : (events.foldl (fun m e => m.set e.Symbol e) m).keys.Nodup := by
  induction events generalizing m with
  | nil => exact h
  | cons x xs ih => exact ih _ (GoMap.nodup_keys_set m _ _ h)

theorem foldl_set_mem_keys (m : GoMap TickerMessage) (events : List TickerMessage) (k : String) :
    k ∈ (events.foldl (fun m e => m.set e.Symbol e) m).keys
      ↔ k ∈ m.keys ∨ ∃ e ∈ events, e.Symbol = k := by
  induction events generalizing m with
  | nil => simp
  | cons x xs ih =>
    rw [List.foldl_cons, ih, GoMap.mem_keys_set]
    constructor
    · rintro ((h | h) | ⟨e, he, hk⟩)
      · exact Or.inr ⟨x, List.mem_cons_self _ _, h.symm⟩
      · exact Or.inl h
      · exact Or.inr ⟨e, List.mem_cons_of_mem _ he, hk⟩
    · rintro (h | ⟨e, he, hk⟩)
      · exact Or.inl (Or.inr h)
      · rcases List.mem_cons.mp he with h | h
        · exact Or.inl (Or.inl (by rw [← hk, h]))
        · exact Or.inr ⟨e, h, hk⟩

theorem keyedBySymbol_empty : KeyedBySymbol Store.empty := by
  intro k d h
  simp [Store.empty, GoMap.get_empty] at h

theorem keyedBySymbol_applyUpdate (st : Store) (e : TickerMessage) (h : KeyedBySymbol st) :
    KeyedBySymbol (applyUpdate st e) := by
  intro k d hd
  by_cases hk : k = e.Symbol
  · subst hk
    simp only [applyUpdate, GoMap.get_set_self, Option.some.injEq] at hd
    rw [← hd]
  · simp only [applyUpdate, GoMap.get_set_ne _ _ _ _ hk] at hd
    exact h k d hd

theorem keyedBySymbol_runSteps (rt : Runtime) (st : Store) (steps : List Step)
    (h : KeyedBySymbol st) : KeyedBySymbol (runSteps rt st steps) := by
  induction steps generalizing st with
  | nil => exact h
  | cons x xs ih =>
    cases x with
    | apply e => exact ih _ (keyedBySymbol_applyUpdate st e h)
    | render => exact ih _ h

theorem printRow_symbol (rt : Runtime) (st : Store) (s : String) (hs : s ∈ assets)
    (h : KeyedBySymbol st) : (printRow rt st.tickerData st.prevPrices s).row.symbol = s := by
  have hl := ToLower_of_mem_assets rt s hs
  cases hd : st.tickerData.get (ToLower rt s) with
  | none => rw [printRow_of_none _ _ _ _ hd]; rfl
  | some d =>
    have hsym : d.Symbol = s := by rw [hl] at hd; exact h s d hd
    cases h1 : rt.Float64 d.LastPrice <;> cases h2 : rt.Float64 d.BidPrice <;>
    cases h3 : rt.Float64 d.AskPrice <;> cases h4 : rt.Float64 d.PriceChange <;>
    cases h5 : rt.Float64 d.PriceChangePct <;>
    simp only [printRow, hd, h1, h2, h3, h4, h5, Row.symbol, hsym]

theorem text_symbol_column (r : Row) :
    ∃ rest : String, r.text = padRight 10 r.symbol ++ " | " ++ rest := by
  cases r with
  | numeric s c l b a p pc =>
    exact ⟨_, by simp only [Row.text, Row.symbol, String.append_assoc]; rfl⟩
  | conversionError s =>
    exact ⟨"Erro de Conversão\n", by
      simp only [Row.text, Row.symbol, String.append_assoc]
      rfl⟩
  | placeholder s =>
    exact ⟨_, by simp only [Row.text, Row.symbol, String.append_assoc]; rfl⟩

theorem aggregatorStep_prev (rt : Runtime) (st : Store) (e : TickerMessage) (s : String)
    (P : F64) (hs : s ∈ assets) (h : lastPriceOf rt (applyUpdate st e).tickerData s = some P) :
    (aggregatorStep rt st e).store.prevPrices.get s = some P := by
  rw [aggregatorStep, printTable_prev, if_pos hs, h]

theorem aggregator_other_updates (rt : Runtime) (st : Store) (mid : List TickerMessage)
    (s : String) (d : TickerMessage) (P : F64) (hs : s ∈ assets)
    (hd : st.tickerData.get s = some d) (hP : rt.Float64 d.LastPrice = some P)
    (hprev : st.prevPrices.get s = some P) (hmid : ∀ m ∈ mid, m.Symbol ≠ s) :
    (aggregator rt st mid).2.tickerData.get s = some d ∧
      (aggregator rt st mid).2.prevPrices.get s = some P := by
  induction mid generalizing st with
  | nil => exact ⟨hd, hprev⟩
  | cons m ms ih =>
    have hne : s ≠ m.Symbol := fun e => hmid m (List.mem_cons_self _ _) e.symm
    have hd' : (applyUpdate st m).tickerData.get s = some d := by
      simp only [applyUpdate, GoMap.get_set_ne _ _ _ _ hne, hd]
    have hl : lastPriceOf rt (applyUpdate st m).tickerData s = some P := by
      simp only [lastPriceOf, hd', hP]
    exact ih (aggregatorStep rt st m).store hd' (aggregatorStep_prev rt st m s P hs hl)
      (fun x hx => hmid x (List.mem_cons_of_mem _ hx))

theorem trendColor_cases (P₁ P₂ : F64) :
    (F64.gt P₂ P₁ = true → trendColor (some P₁) P₂ = colorGreen) ∧
    (F64.lt P₂ P₁ = true → trendColor (some P₁) P₂ = colorRed) ∧
    (F64.eq P₂ P₁ = true → trendColor (some P₁) P₂ = colorDefault) := by
  refine ⟨fun h => ?_, fun h => ?_, fun h => ?_⟩
  · simp only [trendColor, h, if_true]
  · have h' : F64.gt P₂ P₁ = false := F64.lt_asymm _ _ h
    simp [trendColor, h, h']
  · have h' := F64.lt_of_eq _ _ h
    have h1 : F64.gt P₂ P₁ = false := h'.2
    simp [trendColor, h1, h'.1]

theorem trendColor_self (P : F64) : trendColor (some P) P = colorDefault := by
  have h1 : F64.gt P P = false := F64.lt_irrefl P
  simp [trendColor, h1, F64.lt_irrefl P]

theorem digitChar_isDigit (d : Nat) : (digitChar d).isDigit = true := by
  have h : d % 10 < 10 := Nat.mod_lt _ (by decide)
  unfold digitChar
  generalize d % 10 = x at h
  interval_cases x <;> rfl

theorem natDigits_isDigit (fuel n : Nat) : ∀ c ∈ natDigits fuel n, c.isDigit = true := by
  induction fuel generalizing n with
  | zero => intro c hc; simp [natDigits] at hc
  | succ f ih =>
    intro c hc
    unfold natDigits at hc
    split at hc
    · rw [List.mem_singleton] at hc
      rw [hc]; exact digitChar_isDigit n
    · rcases List.mem_append.mp hc with h | h
      · exact ih _ c h
      · rw [List.mem_singleton] at h
        rw [h]; exact digitChar_isDigit n

theorem natDigits_ne_nil (fuel n : Nat) : natDigits (fuel + 1) n ≠ [] := by
  unfold natDigits
  split <;> simp

theorem twoDecimals_fmtF2 (x : F64) (h : x.isFinite = true) : TwoDecimals (fmtF2 x) := by
  cases x with
  | nan => simp [F64.isFinite] at h
  | inf s => simp [F64.isFinite] at h
  | finite neg m e =>
    refine ⟨if neg then "-" else "", natDigits (hundredths m e + 1) (hundredths m e / 100),
      digitChar (hundredths m e / 10), digitChar (hundredths m e), rfl, ?_,
      natDigits_ne_nil _ _, natDigits_isDigit _ _, digitChar_isDigit _, digitChar_isDigit _⟩
    cases neg <;> simp

/-! ## Theorems -/

/-- C1. Storing an update `e` makes the snapshot of `e.Symbol` equal to `e` as a
whole record and leaves the entry of every other key (present or absent, and
its value) as it was. -/
theorem applyUpdate_frame (st : Store) (e : TickerMessage) :
    (applyUpdate st e).tickerData.get e.Symbol = some e ∧
      ∀ k : String, k ≠ e.Symbol → (applyUpdate st e).tickerData.get k = st.tickerData.get k :=
  ⟨GoMap.get_set_self _ _ _, fun _ hk => GoMap.get_set_ne _ _ _ _ hk⟩

/-- C2. After the aggregator has processed a finite sequence of events from the
empty store, the snapshot map has exactly one entry per distinct symbol of the
sequence (no key twice, the keys are the symbols that occur, and their number
is the number of distinct symbols), and the entry of each key is the last event
of the sequence that carries it, as a whole record. -/
theorem aggregator_keeps_last_event (rt : Runtime) (events : List TickerMessage) :
    (aggregator rt Store.empty events).2.tickerData.keys.Nodup ∧
    (∀ k : String, k ∈ (aggregator rt Store.empty events).2.tickerData.keys
        ↔ k ∈ events.map TickerMessage.Symbol) ∧
    (aggregator rt Store.empty events).2.tickerData.len
        = (events.map TickerMessage.Symbol).dedup.length ∧
    (∀ k : String, (aggregator rt Store.empty events).2.tickerData.get k
        = events.reverse.find? (fun e => e.Symbol == k)) := by
  have hn : (aggregator rt Store.empty events).2.tickerData.keys.Nodup := by
    rw [aggregator_tickerData]
    exact foldl_set_nodup _ _ List.nodup_nil
  have hm : ∀ k : String, k ∈ (aggregator rt Store.empty events).2.tickerData.keys
      ↔ k ∈ events.map TickerMessage.Symbol := by
    intro k
    rw [aggregator_tickerData, foldl_set_mem_keys]
    simp [Store.empty, GoMap.empty, GoMap.keys]
  refine ⟨hn, hm, ?_, ?_⟩
  · have hp : (aggregator rt Store.empty events).2.tickerData.keys.Perm
        (events.map TickerMessage.Symbol).dedup :=
      (List.perm_ext_iff_of_nodup hn (List.nodup_dedup _)).mpr
        (fun k => by rw [hm k, List.mem_dedup])
    have hl := hp.length_eq
    simpa [GoMap.keys, GoMap.len] using hl
  · intro k
    rw [aggregator_tickerData, foldl_set_get]
    cases List.find? (fun e => e.Symbol == k) events.reverse <;> rfl

/-- C9. On the frames read before the first read failure, the worker publishes
exactly the frames that decode, in frame order, each with its symbol lowered
and every other field as decoded; a frame that does not decode publishes
nothing and the loop goes on, and nothing is published after the first read
failure, whatever would have been read later. -/
theorem monitorAsset_publishes (rt : Runtime) (unmarshal : Frame → Option TickerMessage)
    (frames : List Frame) (later : List (Option Frame)) :
    monitorAsset rt unmarshal (frames.map some)
      = frames.filterMap (fun m =>
          (unmarshal m).map (fun t => { t with Symbol := ToLower rt t.Symbol })) ∧
    monitorAsset rt unmarshal (frames.map some ++ none :: later)
      = monitorAsset rt unmarshal (frames.map some) := by
  induction frames with
  | nil => exact ⟨rfl, rfl⟩
  | cons m ms ih =>
    cases hm : unmarshal m with
    | none =>
      simp only [List.map_cons, List.cons_append, monitorAsset, hm, List.filterMap_cons,
        Option.map_none']
      exact ih
    | some t =>
      simp only [List.map_cons, List.cons_append, monitorAsset, hm, List.filterMap_cons,
        Option.map_some', List.cons.injEq, true_and]
      exact ih

/-- C4. In every state reached from the empty store by updates and renders in
any order, a render prints exactly one row per instrument of the list, and the
symbol column of the i-th row holds the i-th symbol of `assets`; this covers the
numeric rows, which print the symbol stored in the snapshot. -/
theorem printTable_rows_in_declared_order (rt : Runtime) (steps : List Step) :
    (printTable rt (runSteps rt Store.empty steps)).rows.length = assets.length ∧
    (printTable rt (runSteps rt Store.empty steps)).rows.map Row.symbol
      = ["btcusdt", "ethusdt", "bnbusdt", "xrpusdt", "solusdt", "adausdt"] ∧
    ∀ (i : Nat) (r : Row), (printTable rt (runSteps rt Store.empty steps)).rows[i]? = some r →
      ∃ (s rest : String), assets[i]? = some s ∧ r.text = padRight 10 s ++ " | " ++ rest := by
  have hk := keyedBySymbol_runSteps rt Store.empty steps keyedBySymbol_empty
  have hmap : (printTable rt (runSteps rt Store.empty steps)).rows.map Row.symbol = assets := by
    rw [printTable_rows, List.map_map]
    conv_rhs => rw [← List.map_id assets]
    exact List.map_congr_left (fun s hs => printRow_symbol rt _ s hs hk)
  refine ⟨?_, hmap, ?_⟩
  · rw [printTable_rows, List.length_map]
  · intro i r hr
    obtain ⟨rest, hrest⟩ := text_symbol_column r
    refine ⟨r.symbol, rest, ?_, hrest⟩
    rw [← hmap, List.getElem?_map, hr]
    rfl

/-- C3. When two consecutive updates of a listed instrument `s` carry the last
prices `P₁` then `P₂` (every update being followed by a render, updates of other
instruments in between, the rendered fields convertible), the render that
follows the second update prints the numeric row of `s` with the last-price
cell green when `P₂ > P₁`, red when `P₂ < P₁`, and in the default colour when
`P₂ == P₁`. -/
theorem trend_color_after_consecutive_updates (rt : Runtime) (st₀ : Store)
    (e₁ e₂ : TickerMessage) (mid : List TickerMessage) (s : String)
    (P₁ P₂ bid ask chg pct : F64) (hs : s ∈ assets)
    (h₁ : e₁.Symbol = s) (h₂ : e₂.Symbol = s) (hmid : ∀ m ∈ mid, m.Symbol ≠ s)
    (hP₁ : rt.Float64 e₁.LastPrice = some P₁) (hP₂ : rt.Float64 e₂.LastPrice = some P₂)
    (hbid : rt.Float64 e₂.BidPrice = some bid) (hask : rt.Float64 e₂.AskPrice = some ask)
    (hchg : rt.Float64 e₂.PriceChange = some chg)
    (hpct : rt.Float64 e₂.PriceChangePct = some pct) :
    ∃ r : Render, (aggregator rt st₀ (e₁ :: mid ++ [e₂])).1.getLast? = some r ∧
      (F64.gt P₂ P₁ = true →
        r.rowOf s = some (Row.numeric s colorGreen P₂ bid ask chg pct)) ∧
      (F64.lt P₂ P₁ = true →
        r.rowOf s = some (Row.numeric s colorRed P₂ bid ask chg pct)) ∧
      (F64.eq P₂ P₁ = true →
        r.rowOf s = some (Row.numeric s colorDefault P₂ bid ask chg pct)) := by
  have hl := ToLower_of_mem_assets rt s hs
  -- the state after the first update and its render
  have hd₁ : (applyUpdate st₀ e₁).tickerData.get s = some e₁ := by
    rw [← h₁]; exact GoMap.get_set_self _ _ _
  have hprev₁ : (aggregatorStep rt st₀ e₁).store.prevPrices.get s = some P₁ :=
    aggregatorStep_prev rt st₀ e₁ s P₁ hs (by simp only [lastPriceOf, hd₁, hP₁])
  -- the updates of other instruments keep both
  have hinv := aggregator_other_updates rt (aggregatorStep rt st₀ e₁).store mid s e₁ P₁ hs
    hd₁ hP₁ hprev₁ hmid
  have hst : (aggregator rt st₀ (e₁ :: mid)).2
      = (aggregator rt (aggregatorStep rt st₀ e₁).store mid).2 := rfl
  rw [← hst] at hinv
  -- the render that follows the second update
  have hrun : (aggregator rt st₀ (e₁ :: mid ++ [e₂])).1
      = (aggregator rt st₀ (e₁ :: mid)).1
          ++ [aggregatorStep rt (aggregator rt st₀ (e₁ :: mid)).2 e₂] := by
    rw [aggregator_append]
    rfl
  have hd₂ : (applyUpdate (aggregator rt st₀ (e₁ :: mid)).2 e₂).tickerData.get (ToLower rt s)
      = some e₂ := by
    rw [hl, ← h₂]; exact GoMap.get_set_self _ _ _
  have hrow : (aggregatorStep rt (aggregator rt st₀ (e₁ :: mid)).2 e₂).rowOf s
      = some (Row.numeric s (trendColor (some P₁) P₂) P₂ bid ask chg pct) := by
    rw [aggregatorStep, printTable_rowOf rt _ s hs,
      printRow_of_some rt _ _ s e₂ P₂ bid ask chg pct hd₂ hP₂ hbid hask hchg hpct, hl, h₂]
    show some (Row.numeric s
      (trendColor ((aggregator rt st₀ (e₁ :: mid)).2.prevPrices.get s) P₂) P₂ bid ask chg pct) = _
    rw [hinv.2]
  refine ⟨_, by rw [hrun, List.getLast?_concat], ?_, ?_, ?_⟩
  · intro h; rw [hrow, (trendColor_cases P₁ P₂).1 h]
  · intro h; rw [hrow, (trendColor_cases P₁ P₂).2.1 h]
  · intro h; rw [hrow, (trendColor_cases P₁ P₂).2.2 h]

/-- C5. When the snapshot of a listed instrument has one of its five rendered
fields not convertible, the render still prints the whole table, prints for that
instrument the conversion-error row (symbol and message, no numeric column), and
prints for every other instrument the row it would print whatever snapshot that
instrument had, a well-formed one included. -/
theorem conversion_failure_confined_to_row (rt : Runtime) (st : Store) (s : String)
    (d : TickerMessage) (hs : s ∈ assets) (hd : st.tickerData.get s = some d)
    (hf : rt.Float64 d.LastPrice = none ∨ rt.Float64 d.BidPrice = none ∨
      rt.Float64 d.AskPrice = none ∨ rt.Float64 d.PriceChange = none ∨
      rt.Float64 d.PriceChangePct = none) :
    (printTable rt st).rows.length = assets.length ∧
    (printTable rt st).rowOf s = some (Row.conversionError s) ∧
    (Row.conversionError s).text = padRight 10 s ++ " | Erro de Conversão\n" ∧
    ∀ (d' : TickerMessage) (s' : String), s' ∈ assets → s' ≠ s →
      (printTable rt ⟨st.tickerData.set s d', st.prevPrices⟩).rowOf s'
        = (printTable rt st).rowOf s' := by
  have hl := ToLower_of_mem_assets rt s hs
  refine ⟨by rw [printTable_rows, List.length_map], ?_, rfl, ?_⟩
  · rw [printTable_rowOf rt st s hs, printRow_of_failure rt _ _ s d (by rw [hl]; exact hd) hf]
  · intro d' s' hs' hne
    rw [printTable_rowOf rt _ s' hs', printTable_rowOf rt st s' hs']
    have hl' := ToLower_of_mem_assets rt s' hs'
    rw [printRow_congr_tickerData rt (st.tickerData.set s d') st.tickerData st.prevPrices s'
      (by rw [hl']; exact GoMap.get_set_ne _ _ _ _ hne)]

/-- C6. For a listed instrument with no entry in the snapshot map, the render
prints the placeholder row (the symbol, then `-` in each of the five numeric
columns), calls `Float64` on nothing for it, and leaves its previous-price
record as it was, present or absent. -/
theorem unseen_instrument_gets_placeholder (rt : Runtime) (st : Store) (s : String)
    (hs : s ∈ assets) (hd : st.tickerData.get s = none) :
    (printTable rt st).rowOf s = some (Row.placeholder s) ∧
    (Row.placeholder s).text
      = padRight 10 s ++ " | -            | -          | -          | -          | -         \n" ∧
    (∀ c ∈ (printTable rt st).calls, c.1 ≠ s) ∧
    (printTable rt st).store.prevPrices.get s = st.prevPrices.get s := by
  have hl := ToLower_of_mem_assets rt s hs
  have hd' : st.tickerData.get (ToLower rt s) = none := by rw [hl]; exact hd
  refine ⟨?_, ?_, ?_, ?_⟩
  · rw [printTable_rowOf rt st s hs, printRow_of_none rt _ _ s hd']
  · simp only [Row.text, String.append_assoc]
    rfl
  · intro c hc hcs
    rw [printTable_calls, List.mem_flatMap] at hc
    obtain ⟨x, -, hx⟩ := hc
    rw [List.mem_map] at hx
    obtain ⟨t, ht, rfl⟩ := hx
    simp only at hcs
    subst hcs
    rw [printRow_of_none rt _ _ x hd'] at ht
    exact List.not_mem_nil _ ht
  · rw [printTable_prev, if_pos hs]
    simp only [lastPriceOf, hd]

/-- C7. For a listed instrument whose snapshot has its five rendered fields
convertible, the render prints the numeric row: symbol, last price, bid price,
ask price, absolute change, percentage change followed by `%`, in this order,
every finite value with exactly two decimals.  In particular the btcusdt event
with last price 61234.50, bid 61234.00, ask 61235.00, change 120.10 and
change-percent 0.20 is printed as
`btcusdt | 61234.50 | 61234.00 | 61235.00 | 120.10 | 0.20%`, with the padding and
the colour escapes of the format. -/
theorem printTable_numeric_row :
    (∀ (rt : Runtime) (st : Store) (s : String) (d : TickerMessage)
        (last bid ask chg pct : F64),
      s ∈ assets → st.tickerData.get s = some d →
      rt.Float64 d.LastPrice = some last → rt.Float64 d.BidPrice = some bid →
      rt.Float64 d.AskPrice = some ask → rt.Float64 d.PriceChange = some chg →
      rt.Float64 d.PriceChangePct = some pct →
      (printTable rt st).rowOf s
        = some (Row.numeric d.Symbol (trendColor (st.prevPrices.get s) last)
            last bid ask chg pct) ∧
      (Row.numeric d.Symbol (trendColor (st.prevPrices.get s) last) last bid ask chg pct).text
        = padRight 10 d.Symbol ++ " | " ++ trendColor (st.prevPrices.get s) last
            ++ padRight 12 (fmtF2 last) ++ "\x1b[0m | " ++ padRight 10 (fmtF2 bid) ++ " | "
            ++ padRight 10 (fmtF2 ask) ++ " | " ++ padRight 10 (fmtF2 chg) ++ " | "
            ++ padRight 10 (fmtF2 pct) ++ "%\n" ∧
      (trendColor (st.prevPrices.get s) last ∈ [colorDefault, colorGreen, colorRed]) ∧
      ∀ x ∈ [last, bid, ask, chg, pct], x.isFinite = true → TwoDecimals (fmtF2 x)) ∧
    ((printTable decimalRuntime (applyUpdate Store.empty exampleTicker)).rowOf "btcusdt").map
        Row.text
      = some "btcusdt    | \x1b[0m61234.50    \x1b[0m | 61234.00   | 61235.00   | 120.10     | 0.20      %\n" := by
  refine ⟨?_, by decide⟩
  intro rt st s d last bid ask chg pct hs hd hlast hbid hask hchg hpct
  have hl := ToLower_of_mem_assets rt s hs
  refine ⟨?_, ?_, ?_, fun x _ hx => twoDecimals_fmtF2 x hx⟩
  · rw [printTable_rowOf rt st s hs,
      printRow_of_some rt _ _ s d last bid ask chg pct (by rw [hl]; exact hd) hlast hbid hask
        hchg hpct, hl]
  · simp only [Row.text, String.append_assoc]
    rfl
  · unfold trendColor
    split
    · split
      · simp
      · split <;> simp
    · simp

/-- C8, as the code has it. The last-price cell of a listed instrument is
coloured by comparing its last price with the one the preceding render recorded
for it: the render after an update of the instrument shows the movement from
the price rendered before, and a render triggered by an update of a different
instrument compares the unchanged price with itself and uses the default
colour. -/
theorem trend_color_since_previous_render (rt : Runtime) (st₀ : Store)
    (e₁ e₂ : TickerMessage) (s : String) (d₁ d₂ : TickerMessage)
    (P₁ P₂ bid ask chg pct : F64) (hs : s ∈ assets)
    (hd₁ : (aggregatorStep rt st₀ e₁).store.tickerData.get s = some d₁)
    (hP₁ : rt.Float64 d₁.LastPrice = some P₁)
    (hd₂ : (applyUpdate (aggregatorStep rt st₀ e₁).store e₂).tickerData.get s = some d₂)
    (hP₂ : rt.Float64 d₂.LastPrice = some P₂) (hbid : rt.Float64 d₂.BidPrice = some bid)
    (hask : rt.Float64 d₂.AskPrice = some ask) (hchg : rt.Float64 d₂.PriceChange = some chg)
    (hpct : rt.Float64 d₂.PriceChangePct = some pct) :
    (aggregatorStep rt (aggregatorStep rt st₀ e₁).store e₂).rowOf s
      = some (Row.numeric d₂.Symbol (trendColor (some P₁) P₂) P₂ bid ask chg pct) ∧
    (e₂.Symbol ≠ s → d₂ = d₁ ∧
      (aggregatorStep rt (aggregatorStep rt st₀ e₁).store e₂).rowOf s
        = some (Row.numeric d₁.Symbol colorDefault P₂ bid ask chg pct)) := by
  have hl := ToLower_of_mem_assets rt s hs
  have hprev : (aggregatorStep rt st₀ e₁).store.prevPrices.get s = some P₁ := by
    apply aggregatorStep_prev rt st₀ e₁ s P₁ hs
    have h : (applyUpdate st₀ e₁).tickerData.get s = some d₁ := hd₁
    simp only [lastPriceOf, h, hP₁]
  have hrow : (aggregatorStep rt (aggregatorStep rt st₀ e₁).store e₂).rowOf s
      = some (Row.numeric d₂.Symbol (trendColor (some P₁) P₂) P₂ bid ask chg pct) := by
    rw [aggregatorStep, printTable_rowOf rt _ s hs,
      printRow_of_some rt _ _ s d₂ P₂ bid ask chg pct (by rw [hl]; exact hd₂) hP₂ hbid hask
        hchg hpct, hl]
    show some (Row.numeric d₂.Symbol
      (trendColor ((aggregatorStep rt st₀ e₁).store.prevPrices.get s) P₂) P₂ bid ask chg pct) = _
    rw [hprev]
  refine ⟨hrow, fun hne => ?_⟩
  have hsame : d₂ = d₁ := by
    have h : (applyUpdate (aggregatorStep rt st₀ e₁).store e₂).tickerData.get s
        = (aggregatorStep rt st₀ e₁).store.tickerData.get s :=
      GoMap.get_set_ne _ _ _ _ (fun e => hne e.symm)
    rw [hd₂, hd₁] at h
    exact Option.some.inj h
  subst hsame
  have hP : P₂ = P₁ := Option.some.inj (hP₂.symm.trans hP₁)
  subst hP
  exact ⟨rfl, by rw [hrow, trendColor_self]⟩

/-! ## Instances on concrete inputs -/

/-- C1 on an example: storing the btcusdt event in a store that holds ethusdt
only. -/
theorem applyUpdate_frame_witness :
    (applyUpdate (applyUpdate Store.empty (tick "ethusdt" "5")) exampleTicker).tickerData.get
        "btcusdt" = some exampleTicker ∧
    (applyUpdate (applyUpdate Store.empty (tick "ethusdt" "5")) exampleTicker).tickerData.get
        "ethusdt" = some (tick "ethusdt" "5") ∧
    (applyUpdate (applyUpdate Store.empty (tick "ethusdt" "5")) exampleTicker).tickerData.get
        "bnbusdt" = none :=
  ⟨(applyUpdate_frame (applyUpdate Store.empty (tick "ethusdt" "5")) exampleTicker).1,
    ((applyUpdate_frame (applyUpdate Store.empty (tick "ethusdt" "5")) exampleTicker).2
      "ethusdt" (by decide)).trans (by decide),
    ((applyUpdate_frame (applyUpdate Store.empty (tick "ethusdt" "5")) exampleTicker).2
      "bnbusdt" (by decide)).trans (by decide)⟩

/-- C2 on an example: three events over two instruments leave two entries, and
btcusdt holds its second event. -/
theorem aggregator_keeps_last_event_witness :
    (aggregator decimalRuntime Store.empty
        [tick "btcusdt" "1", tick "ethusdt" "5", tick "btcusdt" "2"]).2.tickerData.len = 2 ∧
    (aggregator decimalRuntime Store.empty
        [tick "btcusdt" "1", tick "ethusdt" "5", tick "btcusdt" "2"]).2.tickerData.get "btcusdt"
      = some (tick "btcusdt" "2") :=
  ⟨(aggregator_keeps_last_event decimalRuntime
      [tick "btcusdt" "1", tick "ethusdt" "5", tick "btcusdt" "2"]).2.2.1.trans (by decide),
    ((aggregator_keeps_last_event decimalRuntime
      [tick "btcusdt" "1", tick "ethusdt" "5", tick "btcusdt" "2"]).2.2.2 "btcusdt").trans
      (by decide)⟩

/-- C3 on an example: btcusdt goes from 1 to 2 with an update of ethusdt in
between, and the render after the second update prints its last price green. -/
theorem trend_color_after_consecutive_updates_witness :
    ∃ r : Render,
      (aggregator decimalRuntime Store.empty
        [tick "btcusdt" "1", tick "ethusdt" "5", tick "btcusdt" "2"]).1.getLast? = some r ∧
      (r.rowOf "btcusdt").map Row.text
        = some "btcusdt    | \x1b[32m2.00        \x1b[0m | 2.00       | 2.00       | 0.00       | 0.00      %\n" := by
  obtain ⟨r, hr, hup, -, -⟩ := trend_color_after_consecutive_updates decimalRuntime Store.empty
    (tick "btcusdt" "1") (tick "btcusdt" "2") [tick "ethusdt" "5"] "btcusdt"
    (F64.finite false 4503599627370496 (-52)) (F64.finite false 4503599627370496 (-51)) (F64.finite false 4503599627370496 (-51)) (F64.finite false 4503599627370496 (-51)) (F64.finite false 0 0) (F64.finite false 0 0)
    (by decide) rfl rfl (by decide) (by decide) (by decide) (by decide) (by decide) (by decide)
    (by decide)
  exact ⟨r, hr, by rw [hup (by decide)]; decide⟩

/-- C4 on an example: events arrive for solusdt and then btcusdt, and the rows
still follow the declared list. -/
theorem printTable_rows_in_declared_order_witness :
    (printTable decimalRuntime (runSteps decimalRuntime Store.empty
        [Step.apply (tick "solusdt" "3"), Step.render, Step.apply exampleTicker])).rows.map
        Row.symbol
      = ["btcusdt", "ethusdt", "bnbusdt", "xrpusdt", "solusdt", "adausdt"] :=
  (printTable_rows_in_declared_order decimalRuntime
    [Step.apply (tick "solusdt" "3"), Step.render, Step.apply exampleTicker]).2.1

/-- C5 on an example: the last price of btcusdt is the text N/A; its row is the
error row and the row of ethusdt is the one printed when btcusdt is well-formed. -/
theorem conversion_failure_confined_to_row_witness :
    (printTable decimalRuntime
        ⟨(GoMap.empty.set "ethusdt" (tick "ethusdt" "5")).set "btcusdt" (tick "btcusdt" "N/A"),
          GoMap.empty⟩).rowOf "btcusdt"
      = some (Row.conversionError "btcusdt") ∧
    (printTable decimalRuntime
        ⟨((GoMap.empty.set "ethusdt" (tick "ethusdt" "5")).set "btcusdt"
            (tick "btcusdt" "N/A")).set "btcusdt" exampleTicker, GoMap.empty⟩).rowOf "ethusdt"
      = (printTable decimalRuntime
          ⟨(GoMap.empty.set "ethusdt" (tick "ethusdt" "5")).set "btcusdt" (tick "btcusdt" "N/A"),
            GoMap.empty⟩).rowOf "ethusdt" :=
  ⟨(conversion_failure_confined_to_row decimalRuntime
      ⟨(GoMap.empty.set "ethusdt" (tick "ethusdt" "5")).set "btcusdt" (tick "btcusdt" "N/A"),
        GoMap.empty⟩ "btcusdt" (tick "btcusdt" "N/A") (by decide) (by decide)
      (Or.inl (by decide))).2.1,
    (conversion_failure_confined_to_row decimalRuntime
      ⟨(GoMap.empty.set "ethusdt" (tick "ethusdt" "5")).set "btcusdt" (tick "btcusdt" "N/A"),
        GoMap.empty⟩ "btcusdt" (tick "btcusdt" "N/A") (by decide) (by decide)
      (Or.inl (by decide))).2.2.2 exampleTicker "ethusdt" (by decide) (by decide)⟩

/-- C6 on an example: nothing was received for ethusdt. -/
theorem unseen_instrument_gets_placeholder_witness :
    (printTable decimalRuntime (applyUpdate Store.empty exampleTicker)).rowOf "ethusdt"
      = some (Row.placeholder "ethusdt") ∧
    (∀ c ∈ (printTable decimalRuntime (applyUpdate Store.empty exampleTicker)).calls,
      c.1 ≠ "ethusdt") ∧
    (printTable decimalRuntime (applyUpdate Store.empty exampleTicker)).store.prevPrices.get
        "ethusdt" = none :=
  ⟨(unseen_instrument_gets_placeholder decimalRuntime (applyUpdate Store.empty exampleTicker)
      "ethusdt" (by decide) (by decide)).1,
    (unseen_instrument_gets_placeholder decimalRuntime (applyUpdate Store.empty exampleTicker)
      "ethusdt" (by decide) (by decide)).2.2.1,
    (unseen_instrument_gets_placeholder decimalRuntime (applyUpdate Store.empty exampleTicker)
      "ethusdt" (by decide) (by decide)).2.2.2.trans (by decide)⟩

/-- C7 on the round-trip example: the row of btcusdt holds the five values
nearest to 61234.50, 61234.00, 61235.00, 120.10 and 0.20 in the default colour,
and the last price reads 61234.50. -/
theorem printTable_numeric_row_witness :
    (printTable decimalRuntime (applyUpdate Store.empty exampleTicker)).rowOf "btcusdt"
      = some (Row.numeric "btcusdt" "\x1b[0m" (F64.finite false 8416005596381184 (-37))
          (F64.finite false 8415936876904448 (-37)) (F64.finite false 8416074315857920 (-37))
          (F64.finite false 8451286175737446 (-46)) (F64.finite false 7205759403792794 (-55))) ∧
    fmtF2 (F64.finite false 8416005596381184 (-37)) = "61234.50" ∧
    TwoDecimals (fmtF2 (F64.finite false 8416005596381184 (-37))) :=
  ⟨(printTable_numeric_row.1 decimalRuntime (applyUpdate Store.empty exampleTicker) "btcusdt"
      exampleTicker (F64.finite false 8416005596381184 (-37))
      (F64.finite false 8415936876904448 (-37)) (F64.finite false 8416074315857920 (-37))
      (F64.finite false 8451286175737446 (-46)) (F64.finite false 7205759403792794 (-55))
      (by decide) (by decide) (by decide) (by decide) (by decide) (by decide) (by decide)).1,
    by decide,
    (printTable_numeric_row.1 decimalRuntime (applyUpdate Store.empty exampleTicker) "btcusdt"
      exampleTicker (F64.finite false 8416005596381184 (-37))
      (F64.finite false 8415936876904448 (-37)) (F64.finite false 8416074315857920 (-37))
      (F64.finite false 8451286175737446 (-46)) (F64.finite false 7205759403792794 (-55))
      (by decide) (by decide) (by decide) (by decide) (by decide) (by decide) (by decide)).2.2.2
      (F64.finite false 8416005596381184 (-37)) (by simp) rfl⟩

/-- C8 as stated fails: btcusdt is updated from 1 to 2 and then ethusdt is
updated.  The render triggered by the ethusdt update prints the last price of
btcusdt in the default colour, although btcusdt's own two most recent updates
moved its price up, for which the colour is green. -/
theorem trend_color_not_since_prior_update :
    (aggregator decimalRuntime Store.empty
        [tick "btcusdt" "1", tick "btcusdt" "2", tick "ethusdt" "1"]).1.map
        (fun r => r.rowOf "btcusdt")
      = [some (Row.numeric "btcusdt" colorDefault (F64.finite false 4503599627370496 (-52)) (F64.finite false 4503599627370496 (-52)) (F64.finite false 4503599627370496 (-52)) (F64.finite false 0 0) (F64.finite false 0 0)),
         some (Row.numeric "btcusdt" colorGreen (F64.finite false 4503599627370496 (-51)) (F64.finite false 4503599627370496 (-51)) (F64.finite false 4503599627370496 (-51)) (F64.finite false 0 0) (F64.finite false 0 0)),
         some (Row.numeric "btcusdt" colorDefault (F64.finite false 4503599627370496 (-51)) (F64.finite false 4503599627370496 (-51)) (F64.finite false 4503599627370496 (-51)) (F64.finite false 0 0) (F64.finite false 0 0))] ∧
    decimalRuntime.Float64 (tick "btcusdt" "1").LastPrice = some (F64.finite false 4503599627370496 (-52)) ∧
    decimalRuntime.Float64 (tick "btcusdt" "2").LastPrice = some (F64.finite false 4503599627370496 (-51)) ∧
    F64.gt (F64.finite false 4503599627370496 (-51)) (F64.finite false 4503599627370496 (-52)) = true ∧
    trendColor (some (F64.finite false 4503599627370496 (-52))) (F64.finite false 4503599627370496 (-51)) = colorGreen ∧ colorGreen ≠ colorDefault := by
  decide

/-- C8 as the code has it, on the same run: the render that follows the ethusdt
update compares the last price of btcusdt, 2, with the 2 recorded by the render
before it. -/
theorem trend_color_since_previous_render_witness :
    (aggregatorStep decimalRuntime
        (aggregatorStep decimalRuntime (aggregatorStep decimalRuntime Store.empty
          (tick "btcusdt" "1")).store (tick "btcusdt" "2")).store
        (tick "ethusdt" "1")).rowOf "btcusdt"
      = some (Row.numeric "btcusdt" colorDefault (F64.finite false 4503599627370496 (-51)) (F64.finite false 4503599627370496 (-51)) (F64.finite false 4503599627370496 (-51)) (F64.finite false 0 0) (F64.finite false 0 0)) :=
  ((trend_color_since_previous_render decimalRuntime
    (aggregatorStep decimalRuntime Store.empty (tick "btcusdt" "1")).store
    (tick "btcusdt" "2") (tick "ethusdt" "1") "btcusdt" (tick "btcusdt" "2") (tick "btcusdt" "2")
    (F64.finite false 4503599627370496 (-51)) (F64.finite false 4503599627370496 (-51)) (F64.finite false 4503599627370496 (-51)) (F64.finite false 4503599627370496 (-51)) (F64.finite false 0 0) (F64.finite false 0 0)
    (by decide) (by decide) (by decide) (by decide) (by decide) (by decide) (by decide)
    (by decide) (by decide)).2 (by decide)).2

/-- C9 on an example: three frames are read, the second does not decode, then a
read fails; the two decoded events are published with the symbol lowered and
the frame after the failure is never read. -/
theorem monitorAsset_publishes_witness :
    monitorAsset decimalRuntime sampleUnmarshal [some [1], some [0], some [2], none, some [1]]
      = [tick "btcusdt" "1", tick "btcusdt" "2"] :=
  ((monitorAsset_publishes decimalRuntime sampleUnmarshal [[1], [0], [2]] [some [1]]).2.trans
    (monitorAsset_publishes decimalRuntime sampleUnmarshal [[1], [0], [2]] [some [1]]).1).trans
    (by decide)

end BinanceBot
